import Mathlib

/-!
Verification development for the meme feed viewer (`src/js/app.js`,
`src/js/theme.js`).

The feed engine (class `MemeApp`) is embedded as pure functions over an
explicit `AppState`.  Asynchronous effects are made explicit:
- a network fetch outcome is an `Option RawData` (the Fetch Gateway
  `fetchMemes` returns `null` on any transport/HTTP error);
- `Math.random`-driven choices of `shuffleArray` are supplied as a
  function `rand : Nat → Nat` giving, for loop index `i`, the chosen
  swap index `Math.floor(Math.random() * (i + 1))`;
- DOM rendering is mirrored by the `rendered`, `errorMsg`, `endShown`,
  `indicatorOn` fields of the state, and the number of network requests
  issued by the `fetchCount` field.
-/

namespace MemeApp

/-- A raw upstream record, one element of `data.memes` in the API response
consumed by `parseMemes`. -/
structure Post where
  postLink : String
  title : String
  subreddit : String
  url : String
  ups : Int
  author : String
  nsfw : Bool
  deriving DecidableEq, Repr

/-- The parsed JSON body returned by `fetchMemes` on success.  The field
`memes` is optional because `parseMemes` guards on `!data.memes`. -/
structure RawData where
  memes : Option (List Post)
  deriving DecidableEq, Repr

/-- A normalized feed item, as built by `parseMemes` (lines 145-153 of
`app.js`). -/
structure Item where
  id : String
  title : String
  source : String
  imageUrl : String
  upvotes : Int
  permalink : String
  author : String
  deriving DecidableEq, Repr

/-- The object literal pushed by `parseMemes` for a surviving post. -/
def toItem (post : Post) : Item :=
  { id := post.postLink
    title := post.title
    source := "r/" ++ post.subreddit
    imageUrl := post.url
    upvotes := post.ups
    permalink := post.postLink
    author := post.author }

/-- The loop body of `parseMemes` (lines 132-154): iterate over the raw
records in order, skip a record whose `postLink` is already in `seenIds`,
then skip a record flagged `nsfw`, otherwise add its `postLink` to
`seenIds` and emit the corresponding `Item`.  The dedup ledger
`this.seenIds` is threaded explicitly as a list of strings. -/
def parseMemesAux : List Post → List String → List Item × List String
  | [], seen => ([], seen)
  | post :: rest, seen =>
    if post.postLink ∈ seen then parseMemesAux rest seen
    else if post.nsfw then parseMemesAux rest seen
    else
      let r := parseMemesAux rest (post.postLink :: seen)
      (toItem post :: r.1, r.2)

/-- `MemeApp.parseMemes` (lines 125-157): returns `[]` when the fetch
result is absent or has no `memes` field; otherwise runs the filtering
loop.  The returned pair is (emitted items, updated `seenIds`). -/
def parseMemes (data : Option RawData) (seen : List String) :
    List Item × List String :=
  match data with
  | none => ([], seen)
  | some d =>
    match d.memes with
    | none => ([], seen)
    | some posts => parseMemesAux posts seen

/-- The ledger only grows: every identifier seen before the loop is still
recorded after it. -/
theorem parseMemesAux_seen_mono (posts : List Post) (seen : List String)
    (x : String) (hx : x ∈ seen) : x ∈ (parseMemesAux posts seen).2 := by
  induction posts generalizing seen with
  | nil => simpa [parseMemesAux] using hx
  | cons post rest ih =>
    by_cases h1 : post.postLink ∈ seen
    · simpa [parseMemesAux, h1] using ih seen hx
    · by_cases h2 : post.nsfw
      · simpa [parseMemesAux, h1, h2] using ih seen hx
      · simpa [parseMemesAux, h1, h2] using
          ih (post.postLink :: seen) (List.mem_cons_of_mem _ hx)

/-- Every emitted item's id was not in the ledger beforehand and is in the
ledger afterwards. -/
theorem parseMemesAux_item_mem (posts : List Post) (seen : List String)
    (it : Item) (hit : it ∈ (parseMemesAux posts seen).1) :
    it.id ∉ seen ∧ it.id ∈ (parseMemesAux posts seen).2 := by
  induction posts generalizing seen with
  | nil => simp [parseMemesAux] at hit
  | cons post rest ih =>
    by_cases h1 : post.postLink ∈ seen
    · simp only [parseMemesAux, if_pos h1] at hit ⊢
      exact ih seen hit
    · by_cases h2 : post.nsfw
      · simp only [parseMemesAux, if_neg h1, if_pos h2] at hit ⊢
        exact ih seen hit
      · simp only [parseMemesAux, if_neg h1, if_neg h2, List.mem_cons] at hit ⊢
        rcases hit with hit | hit
        · subst hit
          refine ⟨h1, ?_⟩
          exact parseMemesAux_seen_mono rest _ _ (List.mem_cons_self _ _)
        · have h := ih (post.postLink :: seen) hit
          exact ⟨fun hc => h.1 (List.mem_cons_of_mem _ hc), h.2⟩

/-- The ids of the items emitted by one `parseMemes` loop are pairwise
distinct. -/
theorem parseMemesAux_nodup (posts : List Post) (seen : List String) :
    ((parseMemesAux posts seen).1.map Item.id).Nodup := by
  induction posts generalizing seen with
  | nil => simp [parseMemesAux]
  | cons post rest ih =>
    by_cases h1 : post.postLink ∈ seen
    · simpa [parseMemesAux, h1] using ih seen
    · by_cases h2 : post.nsfw
      · simpa [parseMemesAux, h1, h2] using ih seen
      · simp only [parseMemesAux, if_neg h1, if_neg h2, List.map_cons,
          List.nodup_cons]
        refine ⟨?_, ih (post.postLink :: seen)⟩
        intro hmem
        rcases List.mem_map.mp hmem with ⟨it, hit, hid⟩
        have h := parseMemesAux_item_mem rest (post.postLink :: seen) it hit
        exact h.1 (by simp [toItem] at hid; simp [hid])

/-- If the loop emitted no item, the ledger is unchanged. -/
theorem parseMemesAux_empty_seen (posts : List Post) (seen : List String)
    (h : (parseMemesAux posts seen).1 = []) :
    (parseMemesAux posts seen).2 = seen := by
  induction posts generalizing seen with
  | nil => simp [parseMemesAux]
  | cons post rest ih =>
    by_cases h1 : post.postLink ∈ seen
    · simp only [parseMemesAux, if_pos h1] at h ⊢
      exact ih seen h
    · by_cases h2 : post.nsfw
      · simp only [parseMemesAux, if_neg h1, if_pos h2] at h ⊢
        exact ih seen h
      · simp [parseMemesAux, if_neg h1, if_neg h2] at h

/-- The emitted items are, in order, a sublist of the input records mapped
through the item constructor: filtering only, no reordering. -/
theorem parseMemesAux_sublist (posts : List Post) (seen : List String) :
    List.Sublist (parseMemesAux posts seen).1 (posts.map toItem) := by
  induction posts generalizing seen with
  | nil => simp [parseMemesAux]
  | cons post rest ih =>
    by_cases h1 : post.postLink ∈ seen
    · simp only [parseMemesAux, if_pos h1, List.map_cons]
      exact List.Sublist.cons _ (ih seen)
    · by_cases h2 : post.nsfw
      · simp only [parseMemesAux, if_neg h1, if_pos h2, List.map_cons]
        exact List.Sublist.cons _ (ih seen)
      · simp only [parseMemesAux, if_neg h1, if_neg h2, List.map_cons]
        exact List.Sublist.cons₂ _ (ih (post.postLink :: seen))

/-- The destructuring swap `[array[i], array[j]] = [array[j], array[i]]`
of `shuffleArray` (line 384), on lists.  `shuffleArray` only invokes it
with `j ≤ i ≤ array.length - 1`, where both reads succeed; out of bounds
the model leaves the list unchanged. -/
def listSwap (l : List α) (i j : Nat) : List α :=
  match l[i]?, l[j]? with
  | some x, some y => (l.set i y).set j x
  | some _, none => l
  | none, some _ => l
  | none, none => l

/-- The loop of `shuffleArray` (lines 382-385): `for (let i = length - 1;
i > 0; i--)` swap position `i` with position `rand i`, where
`rand i = Math.floor(Math.random() * (i + 1))`.  `shuffleAux rand l i`
performs the iterations for indices `i, i-1, ..., 1`. -/
def shuffleAux (rand : Nat → Nat) : List α → Nat → List α
  | l, 0 => l
  | l, i + 1 => shuffleAux rand (listSwap l (i + 1) (rand (i + 1))) i

/-- `MemeApp.shuffleArray` (lines 381-387), with the random draws supplied
by `rand`. -/
def shuffleArray (rand : Nat → Nat) (l : List α) : List α :=
  shuffleAux rand l (l.length - 1)

/-- Reference Fisher-Yates as the spec words it: for index `i` from last
to FIRST (down to 0 inclusive), swap with index `rand i` drawn from
`[0, i]`.  `refFYAux rand l s` performs the iterations for indices
`s-1, s-2, ..., 0`. -/
def refFYAux (rand : Nat → Nat) : List α → Nat → List α
  | l, 0 => l
  | l, s + 1 => refFYAux rand (listSwap l s (rand s)) s

/-- Reference Fisher-Yates shuffle over the whole index range. -/
def refFisherYates (rand : Nat → Nat) (l : List α) : List α :=
  refFYAux rand l l.length

theorem list_eq_take_cons_drop (l : List α) (n : Nat) (h : n < l.length) :
    l = l.take n ++ l[n] :: l.drop (n + 1) := by
  conv_lhs => rw [← List.take_append_drop n l]
  congr 1
  exact (List.getElem_cons_drop l n h).symm

theorem listSet_self (l : List α) (n : Nat) (h : n < l.length) :
    l.set n l[n] = l := by
  apply List.ext_getElem?
  intro m
  by_cases hm : m = n
  · subst hm
    simp [h]
  · rw [List.getElem?_set_ne (by omega)]

theorem count_set_add [DecidableEq α] (l : List α) (n : Nat) (y b : α)
    (h : n < l.length) :
    (l.set n y).count b + (if l[n] = b then 1 else 0) =
      l.count b + (if y = b then 1 else 0) := by
  conv_rhs => rw [list_eq_take_cons_drop l n h]
  rw [List.set_eq_take_append_cons_drop, if_pos h]
  simp only [List.count_append, List.count_cons]
  split_ifs <;> simp_all <;> omega

theorem count_listSwap [DecidableEq α] (l : List α) (i j : Nat) (b : α) :
    (listSwap l i j).count b = l.count b := by
  unfold listSwap
  cases hi : l[i]? with
  | none => cases hj : l[j]? <;> rfl
  | some x =>
    cases hj : l[j]? with
    | none => rfl
    | some y =>
      simp only []
      obtain ⟨hilt, hix⟩ := List.getElem?_eq_some_iff.mp hi
      obtain ⟨hjlt, hjy⟩ := List.getElem?_eq_some_iff.mp hj
      by_cases hij : i = j
      · subst hij
        have hxy : x = y := by rw [← hix, ← hjy]
        subst hxy
        rw [List.set_set, ← hix, listSet_self l i hilt]
      · have hjlt2 : j < (l.set i y).length := by simpa using hjlt
        have e1 := count_set_add (l.set i y) j x b hjlt2
        have e2 := count_set_add l i y b hilt
        have e3 : (l.set i y)[j] = y := by
          rw [List.getElem_set_ne (fun hc => hij hc)]
          exact hjy
        rw [e3] at e1
        rw [hix] at e2
        split_ifs at e1 e2 <;> omega

theorem listSwap_perm (l : List α) (i j : Nat) : List.Perm (listSwap l i j) l := by
  classical
  rw [List.perm_iff_count]
  intro a
  exact count_listSwap l i j a

theorem shuffleAux_perm (rand : Nat → Nat) (l : List α) (i : Nat) :
    List.Perm (shuffleAux rand l i) l := by
  induction i generalizing l with
  | zero => exact List.Perm.refl l
  | succ i ih =>
    exact (ih (listSwap l (i + 1) (rand (i + 1)))).trans
      (listSwap_perm l (i + 1) (rand (i + 1)))

theorem shuffleArray_perm (rand : Nat → Nat) (l : List α) :
    List.Perm (shuffleArray rand l) l :=
  shuffleAux_perm rand l (l.length - 1)

theorem listSwap_self (l : List α) (k : Nat) : listSwap l k k = l := by
  unfold listSwap
  cases hk : l[k]? with
  | none => rfl
  | some x =>
    simp only []
    obtain ⟨hlt, hx⟩ := List.getElem?_eq_some_iff.mp hk
    rw [List.set_set, ← hx, listSet_self l k hlt]

theorem refFYAux_eq_shuffleAux (rand : Nat → Nat) (h0 : rand 0 = 0)
    (l : List α) (i : Nat) : refFYAux rand l (i + 1) = shuffleAux rand l i := by
  induction i generalizing l with
  | zero =>
    show refFYAux rand (listSwap l 0 (rand 0)) 0 = l
    rw [h0, listSwap_self]
    rfl
  | succ i ih =>
    show refFYAux rand (listSwap l (i + 1) (rand (i + 1))) (i + 1) =
      shuffleAux rand (listSwap l (i + 1) (rand (i + 1))) i
    exact ih (listSwap l (i + 1) (rand (i + 1)))

theorem refFisherYates_eq_shuffleArray (rand : Nat → Nat) (h0 : rand 0 = 0)
    (l : List α) : refFisherYates rand l = shuffleArray rand l := by
  unfold refFisherYates shuffleArray
  cases hl : l.length with
  | zero => rfl
  | succ n =>
    simp only [Nat.succ_sub_one]
    exact refFYAux_eq_shuffleAux rand h0 l n

/-- The fixed Source Registry (constructor, lines 15-19). -/
def subreddits : List String :=
  ["ProgrammerHumor", "programmingmemes", "codingmemes"]

/-- `this.maxFailedAttempts` (line 23). -/
def maxFailedAttempts : Nat := 3

/-- The mutable state of one `MemeApp` instance together with the
observable DOM state it drives: `rendered` is the list of meme cards in
the feed element, `errorMsg` the error box shown by `showError` (with its
Try Again button invoking `reloadFeed`), `endShown` whether `endMessage`
has `display: block`, `indicatorOn` whether the loading indicator has the
`active` class, and `fetchCount` the number of network requests issued so
far. -/
structure AppState where
  seenIds : List String
  currentSubredditIndex : Nat
  failedAttempts : Nat
  isLoading : Bool
  hasMore : Bool
  itemsPerPage : Nat
  rendered : List Item
  errorMsg : Option String
  endShown : Bool
  indicatorOn : Bool
  fetchCount : Nat
  deriving Repr

/-- State after the constructor and `setup` (skeletons shown, nothing
rendered yet, no load started).  `itemsPerPage` is the value computed by
`calculateItemsPerPage` from viewport geometry, taken as a parameter. -/
def initialState (pageSize : Nat) : AppState :=
  { seenIds := []
    currentSubredditIndex := 0
    failedAttempts := 0
    isLoading := false
    hasMore := true
    itemsPerPage := pageSize
    rendered := []
    errorMsg := none
    endShown := false
    indicatorOn := false
    fetchCount := 0 }

/-- The prefix of `loadMore` up to its suspension point: lines 293-294
set `isLoading` and activate the indicator, then `fetchMemes` issues
exactly one network request (line 299 via line 110).  The body resumes
with the fetch outcome after this point. -/
def loadMoreStart (s : AppState) : AppState :=
  { s with isLoading := true, indicatorOn := true, fetchCount := s.fetchCount + 1 }

/-- The rest of the `loadMore` body (lines 301-334) once the fetch outcome
`data` is available: parse and render on a present result, bump
`failedAttempts` on a zero-item or absent result, advance the cursor
modulo the registry length, flip to exhausted at the threshold, then
clear `isLoading` and the indicator. -/
def loadMoreBody (s : AppState) (data : Option RawData) : AppState :=
  let s1 :=
    match data with
    | some d =>
      let pr := parseMemes (some d) s.seenIds
      if pr.1.length > 0 then
        { s with seenIds := pr.2, rendered := s.rendered ++ pr.1,
                 failedAttempts := 0 }
      else
        { s with seenIds := pr.2, failedAttempts := s.failedAttempts + 1 }
    | none => { s with failedAttempts := s.failedAttempts + 1 }
  let s2 := { s1 with currentSubredditIndex :=
    (s1.currentSubredditIndex + 1) % subreddits.length }
  let s3 :=
    if maxFailedAttempts ≤ s2.failedAttempts then
      { s2 with hasMore := false, endShown := true }
    else s2
  { s3 with isLoading := false, indicatorOn := false }

/-- `MemeApp.loadMore` (lines 290-335) run to completion with fetch
outcome `data`: guard (line 291), start phase, body. -/
def loadMore (s : AppState) (data : Option RawData) : AppState :=
  if s.isLoading || !s.hasMore then s
  else loadMoreBody (loadMoreStart s) data

/-- `loadMore` when the `try` body throws after the fetch: the `catch`
(lines 328-331) increments `failedAttempts` — skipping render, cursor
advance and the threshold check — and the trailing lines 333-334 still
clear `isLoading` and the indicator. -/
def loadMoreExc (s : AppState) : AppState :=
  if s.isLoading || !s.hasMore then s
  else
    let s1 := loadMoreStart s
    { s1 with failedAttempts := s1.failedAttempts + 1,
              isLoading := false, indicatorOn := false }

/-- The fan-out loop of `loadInitialMemes` (lines 167-174): one fetch
outcome per category, in registry order; absent outcomes are skipped,
present ones are parsed with the ledger threaded through, and the item
lists are concatenated. -/
def gatherMemes : List (Option RawData) → List String → List Item × List String
  | [], seen => ([], seen)
  | d :: rest, seen =>
    match d with
    | none => gatherMemes rest seen
    | some dd =>
      let pr := parseMemes (some dd) seen
      let gr := gatherMemes rest pr.2
      (pr.1 ++ gr.1, gr.2)

/-- The message of line 183. -/
def noMemesMsg : String := "No memes found. Please try again later."

/-- `MemeApp.loadInitialMemes` (lines 160-197) run to completion, with
`results` the per-category fetch outcomes and `rand` the shuffle draws:
set `isLoading`, reset `failedAttempts`, fan out, shuffle, clear the
feed, then either show the error state (empty list) or render the first
`itemsPerPage` items. -/
def loadInitialMemes (s : AppState) (results : List (Option RawData))
    (rand : Nat → Nat) : AppState :=
  let g := gatherMemes results s.seenIds
  let allMemes := shuffleArray rand g.1
  let s0 := { s with isLoading := true, failedAttempts := 0,
                     seenIds := g.2, fetchCount := s.fetchCount + results.length }
  if allMemes.length = 0 then
    { s0 with rendered := [], errorMsg := some noMemesMsg, isLoading := false }
  else
    { s0 with rendered := allMemes.take s.itemsPerPage, errorMsg := none,
              isLoading := false }

/-- The synchronous resets of `reloadFeed` (lines 370-376), identical to
the reload-button handler (lines 344-350): `hasMore := true`, cursor to
0, ledger cleared, `failedAttempts := 0`, end message hidden, feed
cleared and skeletons shown. -/
def reloadReset (s : AppState) : AppState :=
  { s with hasMore := true, currentSubredditIndex := 0, seenIds := [],
           failedAttempts := 0, endShown := false, rendered := [],
           errorMsg := none }

/-- `MemeApp.reloadFeed` (lines 369-378) run to completion: the resets,
then the re-triggered initial load (line 377). -/
def reloadFeed (s : AppState) (results : List (Option RawData))
    (rand : Nat → Nat) : AppState :=
  loadInitialMemes (reloadReset s) results rand

/-- The externally triggered operations of one app instance: an initial
load (startup, line 67), an incremental load with its fetch outcome, an
incremental load whose body throws, and a reload. -/
inductive Ev where
  | initLoad (results : List (Option RawData)) (rand : Nat → Nat)
  | more (data : Option RawData)
  | moreExc
  | reload (results : List (Option RawData)) (rand : Nat → Nat)

/-- One operation applied to the state. -/
def step (s : AppState) : Ev → AppState
  | .initLoad results rand => loadInitialMemes s results rand
  | .more data => loadMore s data
  | .moreExc => loadMoreExc s
  | .reload results rand => reloadFeed s results rand

/-- A whole run of the app: the operations applied in order from the
post-`setup` state. -/
def run (s : AppState) : List Ev → AppState
  | [] => s
  | e :: evs => run (step s e) evs

theorem parseMemes_seen_mono (data : Option RawData) (seen : List String)
    (x : String) (hx : x ∈ seen) : x ∈ (parseMemes data seen).2 := by
  match data with
  | none => simpa [parseMemes] using hx
  | some d =>
    match hm : d.memes with
    | none => simpa [parseMemes, hm] using hx
    | some posts =>
      simpa [parseMemes, hm] using parseMemesAux_seen_mono posts seen x hx

theorem parseMemes_item_mem (data : Option RawData) (seen : List String)
    (it : Item) (hit : it ∈ (parseMemes data seen).1) :
    it.id ∉ seen ∧ it.id ∈ (parseMemes data seen).2 := by
  match data with
  | none => simp [parseMemes] at hit
  | some d =>
    match hm : d.memes with
    | none => simp [parseMemes, hm] at hit
    | some posts =>
      simp only [parseMemes, hm] at hit ⊢
      exact parseMemesAux_item_mem posts seen it hit

theorem parseMemes_nodup (data : Option RawData) (seen : List String) :
    ((parseMemes data seen).1.map Item.id).Nodup := by
  match data with
  | none => simp [parseMemes]
  | some d =>
    match hm : d.memes with
    | none => simp [parseMemes, hm]
    | some posts =>
      simpa [parseMemes, hm] using parseMemesAux_nodup posts seen

theorem parseMemes_empty_seen (data : Option RawData) (seen : List String)
    (h : (parseMemes data seen).1 = []) : (parseMemes data seen).2 = seen := by
  match data with
  | none => simp [parseMemes]
  | some d =>
    match hm : d.memes with
    | none => simp [parseMemes, hm]
    | some posts =>
      simp only [parseMemes, hm] at h ⊢
      exact parseMemesAux_empty_seen posts seen h

theorem gatherMemes_seen_mono (results : List (Option RawData))
    (seen : List String) (x : String) (hx : x ∈ seen) :
    x ∈ (gatherMemes results seen).2 := by
  induction results generalizing seen with
  | nil => simpa [gatherMemes] using hx
  | cons d rest ih =>
    match d with
    | none => simpa [gatherMemes] using ih seen hx
    | some dd =>
      simp only [gatherMemes]
      exact ih _ (parseMemes_seen_mono (some dd) seen x hx)

theorem gatherMemes_item_mem (results : List (Option RawData))
    (seen : List String) (it : Item)
    (hit : it ∈ (gatherMemes results seen).1) :
    it.id ∉ seen ∧ it.id ∈ (gatherMemes results seen).2 := by
  induction results generalizing seen with
  | nil => simp [gatherMemes] at hit
  | cons d rest ih =>
    match d with
    | none =>
      simp only [gatherMemes] at hit ⊢
      exact ih seen hit
    | some dd =>
      simp only [gatherMemes, List.mem_append] at hit ⊢
      rcases hit with hit | hit
      · have h := parseMemes_item_mem (some dd) seen it hit
        exact ⟨h.1, gatherMemes_seen_mono rest _ _ h.2⟩
      · have h := ih _ hit
        exact ⟨fun hc => h.1 (parseMemes_seen_mono (some dd) seen _ hc), h.2⟩

theorem gatherMemes_nodup (results : List (Option RawData))
    (seen : List String) :
    ((gatherMemes results seen).1.map Item.id).Nodup := by
  induction results generalizing seen with
  | nil => simp [gatherMemes]
  | cons d rest ih =>
    match d with
    | none =>
      simp only [gatherMemes]
      exact ih seen
    | some dd =>
      simp only [gatherMemes, List.map_append, List.nodup_append]
      refine ⟨parseMemes_nodup (some dd) seen, ih _, ?_⟩
      intro a ha hb
      rcases List.mem_map.mp ha with ⟨it, hit, rfl⟩
      rcases List.mem_map.mp hb with ⟨it2, hit2, hid⟩
      have h1 := parseMemes_item_mem (some dd) seen it hit
      have h2 := gatherMemes_item_mem rest _ it2 hit2
      exact h2.1 (hid ▸ h1.2)

/-- The session invariant behind the dedup property: the ids of the
rendered cards are pairwise distinct and all recorded in the ledger. -/
def Inv (s : AppState) : Prop :=
  (s.rendered.map Item.id).Nodup ∧ ∀ it ∈ s.rendered, it.id ∈ s.seenIds

theorem inv_initialState (pageSize : Nat) : Inv (initialState pageSize) := by
  constructor <;> simp [initialState, Inv]

theorem inv_loadInitialMemes (s : AppState) (results : List (Option RawData))
    (rand : Nat → Nat) (_hs : Inv s) :
    Inv (loadInitialMemes s results rand) := by
  unfold loadInitialMemes
  by_cases hlen : (shuffleArray rand (gatherMemes results s.seenIds).1).length = 0
  · simp only [hlen, if_pos rfl]
    constructor <;> simp
  · simp only [if_neg hlen]
    constructor
    · apply List.Nodup.sublist
        (List.Sublist.map Item.id (List.take_sublist s.itemsPerPage _))
      have hperm : List.Perm
          ((shuffleArray rand (gatherMemes results s.seenIds).1).map Item.id)
          ((gatherMemes results s.seenIds).1.map Item.id) :=
        List.Perm.map Item.id (shuffleArray_perm rand _)
      exact hperm.nodup_iff.mpr (gatherMemes_nodup results s.seenIds)
    · intro it hit
      have hmem : it ∈ (gatherMemes results s.seenIds).1 :=
        (shuffleArray_perm rand _).mem_iff.mp (List.mem_of_mem_take hit)
      exact (gatherMemes_item_mem results s.seenIds it hmem).2

theorem inv_loadMore (s : AppState) (data : Option RawData) (hs : Inv s) :
    Inv (loadMore s data) := by
  unfold loadMore
  by_cases hg : (s.isLoading || !s.hasMore) = true
  · simpa [hg] using hs
  · simp only [hg, Bool.false_eq_true, if_false]
    unfold loadMoreBody loadMoreStart
    match data with
    | none =>
      simp only []
      split <;> exact ⟨hs.1, hs.2⟩
    | some d =>
      simp only []
      by_cases hpos : 0 < (parseMemes (some d) s.seenIds).1.length
      · simp only [if_pos hpos]
        split
        all_goals
          refine ⟨?_, ?_⟩
          · simp only [List.map_append, List.nodup_append]
            refine ⟨hs.1, parseMemes_nodup (some d) s.seenIds, ?_⟩
            intro a ha hb
            rcases List.mem_map.mp ha with ⟨it, hit, rfl⟩
            rcases List.mem_map.mp hb with ⟨it2, hit2, hid⟩
            have h2 := parseMemes_item_mem (some d) s.seenIds it2 hit2
            exact h2.1 (hid ▸ hs.2 it hit)
          · intro it hit
            rcases List.mem_append.mp hit with hit | hit
            · exact parseMemes_seen_mono (some d) s.seenIds _ (hs.2 it hit)
            · exact (parseMemes_item_mem (some d) s.seenIds it hit).2
      · simp only [if_neg hpos]
        split
        all_goals
          exact ⟨hs.1, fun it hit =>
            parseMemes_seen_mono (some d) s.seenIds _ (hs.2 it hit)⟩

theorem inv_step (s : AppState) (e : Ev) (hs : Inv s) : Inv (step s e) := by
  cases e with
  | initLoad results rand => exact inv_loadInitialMemes s results rand hs
  | more data => exact inv_loadMore s data hs
  | moreExc =>
    show Inv (loadMoreExc s)
    unfold loadMoreExc loadMoreStart
    split
    · exact hs
    · exact ⟨hs.1, hs.2⟩
  | reload results rand =>
    show Inv (reloadFeed s results rand)
    refine inv_loadInitialMemes _ results rand ?_
    constructor <;> simp [reloadReset]

theorem inv_run (s : AppState) (evs : List Ev) (hs : Inv s) :
    Inv (run s evs) := by
  induction evs generalizing s with
  | nil => exact hs
  | cons e rest ih => exact ih (step s e) (inv_step s e hs)

theorem listSwap_length (l : List α) (i j : Nat) :
    (listSwap l i j).length = l.length := by
  unfold listSwap
  cases hi : l[i]? <;> cases hj : l[j]? <;> simp

theorem listSwap_getElem?_other (l : List α) (i j k : Nat) (hki : k ≠ i)
    (hkj : k ≠ j) : (listSwap l i j)[k]? = l[k]? := by
  unfold listSwap
  split
  · rw [List.getElem?_set_ne (fun hc => hkj hc.symm),
      List.getElem?_set_ne (fun hc => hki hc.symm)]
  · rfl
  · rfl
  · rfl

theorem listSwap_getElem?_fst (l : List α) (i j : Nat) (hi : i < l.length)
    (hj : j < l.length) : (listSwap l i j)[i]? = l[j]? := by
  by_cases hij : i = j
  · subst hij
    rw [listSwap_self]
  · unfold listSwap
    rw [List.getElem?_eq_getElem hi, List.getElem?_eq_getElem hj]
    simp only []
    rw [List.getElem?_set_ne (fun hc => hij hc.symm)]
    rw [List.getElem?_set_self (by simpa using hi)]

/-- The shuffle loop with the random draws supplied as an explicit list
of choices: `shuffleWith l (j :: js)` swaps position `js.length + 1` with
position `j` and recurses, so a choice list of length `i` drives the
iterations for indices `i, i-1, ..., 1` exactly as `shuffleAux` does. -/
def shuffleWith : List α → List Nat → List α
  | l, [] => l
  | l, j :: js => shuffleWith (listSwap l (js.length + 1) j) js

/-- A choice list is valid when each entry `j` for loop index `i` lies in
`[0, i]`, the range of `Math.floor(Math.random() * (i + 1))`. -/
def validChoices : List Nat → Bool
  | [] => true
  | j :: js => decide (j ≤ js.length + 1) && validChoices js

/-- All valid choice lists for loop indices `i, ..., 1`. -/
def allChoices : Nat → List (List Nat)
  | 0 => [[]]
  | i + 1 =>
    (List.range (i + 2)).flatMap fun j => (allChoices i).map fun cs => j :: cs

/-- The choice list `[rand i, rand (i-1), ..., rand 1]` extracted from a
random-draw function. -/
def randChoices (rand : Nat → Nat) : Nat → List Nat
  | 0 => []
  | i + 1 => rand (i + 1) :: randChoices rand i

theorem randChoices_length (rand : Nat → Nat) (i : Nat) :
    (randChoices rand i).length = i := by
  induction i with
  | zero => rfl
  | succ i ih => simp [randChoices, ih]

theorem shuffleAux_eq_shuffleWith (rand : Nat → Nat) (i : Nat)
    (l : List α) : shuffleAux rand l i = shuffleWith l (randChoices rand i) := by
  induction i generalizing l with
  | zero => rfl
  | succ i ih =>
    show shuffleAux rand (listSwap l (i + 1) (rand (i + 1))) i =
      shuffleWith l (rand (i + 1) :: randChoices rand i)
    simp only [shuffleWith, randChoices_length]
    exact ih _

theorem shuffleArray_eq_shuffleWith (rand : Nat → Nat) (l : List α) :
    shuffleArray rand l = shuffleWith l (randChoices rand (l.length - 1)) :=
  shuffleAux_eq_shuffleWith rand (l.length - 1) l

theorem shuffleWith_getElem?_high (cs : List Nat) :
    ∀ (l : List α) (k : Nat), validChoices cs = true → cs.length < k →
      (shuffleWith l cs)[k]? = l[k]? := by
  induction cs with
  | nil => intro l k _ _; rfl
  | cons j js ih =>
    intro l k hv hk
    simp only [validChoices, Bool.and_eq_true, decide_eq_true_eq] at hv
    simp only [List.length_cons] at hk
    show (shuffleWith (listSwap l (js.length + 1) j) js)[k]? = l[k]?
    rw [ih _ k hv.2 (by omega)]
    exact listSwap_getElem?_other l (js.length + 1) j k (by omega) (by omega)

theorem shuffleWith_top (j : Nat) (js : List Nat) (l : List α)
    (hv : validChoices js = true) (hlen : js.length + 1 < l.length)
    (hj : j < l.length) :
    (shuffleWith l (j :: js))[js.length + 1]? = l[j]? := by
  show (shuffleWith (listSwap l (js.length + 1) j) js)[js.length + 1]? = l[j]?
  rw [shuffleWith_getElem?_high js _ _ hv (Nat.lt_succ_self _)]
  exact listSwap_getElem?_fst l (js.length + 1) j hlen hj

theorem fy_exists_unique [DecidableEq α] (i : Nat) :
    ∀ l p : List α, l.Nodup → List.Perm p l →
      (∀ k, i < k → l[k]? = p[k]?) → (i = 0 ∨ i < l.length) →
      ∃! cs : List Nat,
        cs.length = i ∧ validChoices cs = true ∧ shuffleWith l cs = p := by
  induction i with
  | zero =>
    intro l p hnd hperm hag _
    have heq : l = p := by
      cases l with
      | nil => exact (hperm.eq_nil).symm
      | cons x t =>
        cases p with
        | nil => simpa using hperm.length_eq
        | cons y u =>
          have htail : t = u := by
            apply List.ext_getElem?
            intro m
            have := hag (m + 1) (Nat.succ_pos m)
            simpa using this
          subst htail
          have hcnt := hperm.count_eq x
          by_cases hxy : y = x
          · rw [hxy]
          · rw [List.count_cons_of_ne (fun hc => hxy hc.symm)] at hcnt
            rw [List.count_cons_self] at hcnt
            omega
    refine ⟨[], ⟨rfl, rfl, heq⟩, ?_⟩
    intro cs hcs
    exact List.length_eq_zero.mp hcs.1
  | succ i ih =>
    intro l p hnd hperm hag hbound
    rcases hbound with h0 | hlt
    · exact absurd h0 (Nat.succ_ne_zero i)
    have hplen : p.length = l.length := hperm.length_eq
    have hip : i + 1 < p.length := by omega
    have hpnd : p.Nodup := hperm.nodup_iff.mpr hnd
    have hymem : p[i + 1] ∈ l := hperm.subset (List.getElem_mem hip)
    obtain ⟨j, hjlt, hjy⟩ := List.getElem_of_mem hymem
    have hjle : j ≤ i + 1 := by
      by_contra hgt
      push_neg at hgt
      have hjp : j < p.length := by omega
      have h1 : l[j]? = p[j]? := hag j hgt
      rw [List.getElem?_eq_getElem hjlt, List.getElem?_eq_getElem hjp] at h1
      have h2 : p[j] = p[i + 1] := by
        have := Option.some.inj h1
        rw [← this, hjy]
      have := (hpnd.getElem_inj_iff).mp h2
      omega
    have hag2 : ∀ k, i < k → (listSwap l (i + 1) j)[k]? = p[k]? := by
      intro k hk
      rcases Nat.lt_or_ge k (i + 2) with hk2 | hk2
      · have hk1 : k = i + 1 := by omega
        subst hk1
        rw [listSwap_getElem?_fst l (i + 1) j hlt hjlt,
          List.getElem?_eq_getElem hjlt, hjy,
          List.getElem?_eq_getElem hip]
      · rw [listSwap_getElem?_other l (i + 1) j k (by omega) (by omega)]
        exact hag k (by omega)
    have hperm2 : List.Perm p (listSwap l (i + 1) j) :=
      hperm.trans (listSwap_perm l (i + 1) j).symm
    have hnd2 : (listSwap l (i + 1) j).Nodup :=
      (listSwap_perm l (i + 1) j).nodup_iff.mpr hnd
    have hlt2 : i = 0 ∨ i < (listSwap l (i + 1) j).length := by
      right
      rw [listSwap_length]
      omega
    obtain ⟨cs, ⟨hcslen, hcsval, hcssh⟩, huniq⟩ :=
      ih (listSwap l (i + 1) j) p hnd2 hperm2 hag2 hlt2
    refine ⟨j :: cs, ⟨by simp [hcslen], ?_, ?_⟩, ?_⟩
    · simp only [validChoices, Bool.and_eq_true, decide_eq_true_eq]
      exact ⟨by omega, hcsval⟩
    · show shuffleWith (listSwap l (cs.length + 1) j) cs = p
      rw [hcslen]
      exact hcssh
    · rintro ⟨⟩ ⟨hlen0, hval0, hsh0⟩
      · simp at hlen0
      rename_i j0 js0
      have hjs0len : js0.length = i := by simpa using hlen0
      simp only [validChoices, Bool.and_eq_true, decide_eq_true_eq] at hval0
      have hj0lt : j0 < l.length := by omega
      have htop : (shuffleWith l (j0 :: js0))[js0.length + 1]? = l[j0]? :=
        shuffleWith_top j0 js0 l hval0.2 (by omega) hj0lt
      rw [hsh0, hjs0len] at htop
      have hj0j : j0 = j := by
        rw [List.getElem?_eq_getElem hip, List.getElem?_eq_getElem hj0lt]
          at htop
        have h1 : l[j0] = l[j] := by
          rw [← (Option.some.inj htop), hjy]
        exact (hnd.getElem_inj_iff).mp h1
      subst hj0j
      have hsh1 : shuffleWith (listSwap l (i + 1) j0) js0 = p := by
        have : shuffleWith (listSwap l (js0.length + 1) j0) js0 = p := hsh0
        rwa [hjs0len] at this
      have := huniq js0 ⟨hjs0len, hval0.2, hsh1⟩
      rw [this]

theorem fy_bijection [DecidableEq α] (l p : List α) (hnd : l.Nodup)
    (hperm : List.Perm p l) :
    ∃! cs : List Nat, cs.length = l.length - 1 ∧ validChoices cs = true ∧
      shuffleWith l cs = p := by
  apply fy_exists_unique (l.length - 1) l p hnd hperm
  · intro k hk
    rw [List.getElem?_eq_none (by omega), List.getElem?_eq_none (by
      rw [hperm.length_eq]; omega)]
  · rcases Nat.eq_zero_or_pos l.length with h | h
    · left; omega
    · right; omega

theorem allChoices_mem (i : Nat) :
    ∀ cs : List Nat, cs ∈ allChoices i ↔
      cs.length = i ∧ validChoices cs = true := by
  induction i with
  | zero =>
    intro cs
    constructor
    · intro h
      have : cs = [] := by simpa [allChoices] using h
      subst this
      exact ⟨rfl, rfl⟩
    · intro h
      have : cs = [] := List.length_eq_zero.mp h.1
      subst this
      simp [allChoices]
  | succ i ih =>
    intro cs
    simp only [allChoices, List.mem_flatMap, List.mem_map, List.mem_range]
    constructor
    · rintro ⟨j, hj, cs0, hcs0, rfl⟩
      have h0 := (ih cs0).mp hcs0
      refine ⟨by simp [h0.1], ?_⟩
      simp only [validChoices, Bool.and_eq_true, decide_eq_true_eq]
      exact ⟨by omega, h0.2⟩
    · rintro ⟨hlen, hval⟩
      cases cs with
      | nil => simp at hlen
      | cons j js =>
        simp only [validChoices, Bool.and_eq_true, decide_eq_true_eq] at hval
        have hjslen : js.length = i := by simpa using hlen
        exact ⟨j, by omega, js, (ih js).mpr ⟨hjslen, hval.2⟩, rfl⟩

theorem allChoices_nodup (i : Nat) : (allChoices i).Nodup := by
  induction i with
  | zero => simp [allChoices]
  | succ i ih =>
    simp only [allChoices]
    rw [List.nodup_flatMap]
    constructor
    · intro j _
      exact ih.map fun a b hab => (List.cons_eq_cons.mp hab).2
    · apply List.Pairwise.imp ?_ (List.pairwise_lt_range (i + 2))
      intro a b hab x hxa hxb
      rcases List.mem_map.mp hxa with ⟨u, _, rfl⟩
      rcases List.mem_map.mp hxb with ⟨v, _, hv⟩
      exact absurd (List.cons_eq_cons.mp hv.symm).1 (by omega)

theorem filter_length_one {β : Type} (L : List β) (P : β → Bool) (x : β)
    (hnd : L.Nodup) (hx : x ∈ L) (hPx : P x = true)
    (huniq : ∀ y ∈ L, P y = true → y = x) : (L.filter P).length = 1 := by
  induction L with
  | nil => simp at hx
  | cons a t ih =>
    simp only [List.nodup_cons] at hnd
    rcases List.mem_cons.mp hx with rfl | hx2
    · rw [List.filter_cons_of_pos hPx]
      have ht : t.filter P = [] := by
        rw [List.filter_eq_nil_iff]
        intro y hy hPy
        exact hnd.1 ((huniq y (List.mem_cons_of_mem _ hy) hPy) ▸ hy)
      rw [ht]
      rfl
    · have hPa : ¬(P a = true) := fun hPa =>
        hnd.1 ((huniq a (List.mem_cons_self a t) hPa) ▸ hx2)
      rw [List.filter_cons_of_neg (by simpa using hPa)]
      exact ih hnd.2 hx2 fun y hy hPy =>
        huniq y (List.mem_cons_of_mem a hy) hPy

theorem shuffle_uniform_count [DecidableEq α] (l p : List α) (hnd : l.Nodup)
    (hperm : List.Perm p l) :
    ((allChoices (l.length - 1)).filter
      fun cs => decide (shuffleWith l cs = p)).length = 1 := by
  obtain ⟨cs, ⟨hlen, hval, hsh⟩, huniq⟩ := fy_bijection l p hnd hperm
  apply filter_length_one _ _ cs (allChoices_nodup _)
  · exact (allChoices_mem _ cs).mpr ⟨hlen, hval⟩
  · simpa using hsh
  · intro y hy hPy
    have hm := (allChoices_mem _ y).mp hy
    exact huniq y ⟨hm.1, hm.2, by simpa using hPy⟩

theorem allChoices_length (i : Nat) :
    (allChoices i).length = Nat.factorial (i + 1) := by
  induction i with
  | zero => rfl
  | succ i ih =>
    show ((List.range (i + 2)).flatMap fun j =>
      (allChoices i).map fun cs => j :: cs).length = Nat.factorial (i + 2)
    rw [List.flatMap]
    rw [List.length_flatten]
    rw [List.map_map]
    have : ((fun l0 => l0.length) ∘ fun j => (allChoices i).map fun cs => j :: cs)
        = fun _ => Nat.factorial (i + 1) := by
      funext j
      simp [ih]
    rw [this, List.map_const', List.sum_replicate, List.length_range,
      smul_eq_mul]
    rw [Nat.factorial_succ (i + 1)]

theorem loadInitialMemes_fields (s : AppState)
    (results : List (Option RawData)) (rand : Nat → Nat) :
    (loadInitialMemes s results rand).isLoading = false ∧
    (loadInitialMemes s results rand).hasMore = s.hasMore ∧
    (loadInitialMemes s results rand).currentSubredditIndex =
      s.currentSubredditIndex ∧
    (loadInitialMemes s results rand).failedAttempts = 0 ∧
    (loadInitialMemes s results rand).endShown = s.endShown := by
  simp only [loadInitialMemes]
  refine ⟨?_, ?_, ?_, ?_, ?_⟩ <;> (split <;> rfl)

theorem loadMore_noop (s : AppState) (data : Option RawData)
    (h : s.isLoading = true ∨ s.hasMore = false) : loadMore s data = s := by
  unfold loadMore
  rcases h with h | h <;> simp [h]

theorem loadMoreBody_fetchCount (s : AppState) (data : Option RawData) :
    (loadMoreBody s data).fetchCount = s.fetchCount := by
  cases data with
  | none =>
    simp only [loadMoreBody]
    split <;> rfl
  | some d =>
    simp only [loadMoreBody]
    split <;> split <;> rfl

theorem loadMoreBody_zero (s : AppState) (data : Option RawData)
    (h : (parseMemes data s.seenIds).1 = []) :
    loadMoreBody s data =
      if maxFailedAttempts ≤ s.failedAttempts + 1 then
        { s with failedAttempts := s.failedAttempts + 1,
                 currentSubredditIndex :=
                   (s.currentSubredditIndex + 1) % subreddits.length,
                 hasMore := false, endShown := true,
                 isLoading := false, indicatorOn := false }
      else
        { s with failedAttempts := s.failedAttempts + 1,
                 currentSubredditIndex :=
                   (s.currentSubredditIndex + 1) % subreddits.length,
                 isLoading := false, indicatorOn := false } := by
  cases data with
  | none =>
    by_cases hc : maxFailedAttempts ≤ s.failedAttempts + 1 <;>
      simp [loadMoreBody, hc]
  | some d =>
    have hseen : (parseMemes (some d) s.seenIds).2 = s.seenIds :=
      parseMemes_empty_seen (some d) s.seenIds h
    by_cases hc : maxFailedAttempts ≤ s.failedAttempts + 1 <;>
      simp [loadMoreBody, h, hseen, hc]

theorem loadMore_zero (s : AppState) (data : Option RawData)
    (hL : s.isLoading = false) (hM : s.hasMore = true)
    (h : (parseMemes data s.seenIds).1 = []) :
    loadMore s data =
      if maxFailedAttempts ≤ s.failedAttempts + 1 then
        { s with failedAttempts := s.failedAttempts + 1,
                 currentSubredditIndex :=
                   (s.currentSubredditIndex + 1) % subreddits.length,
                 hasMore := false, endShown := true,
                 isLoading := false, indicatorOn := false,
                 fetchCount := s.fetchCount + 1 }
      else
        { s with failedAttempts := s.failedAttempts + 1,
                 currentSubredditIndex :=
                   (s.currentSubredditIndex + 1) % subreddits.length,
                 isLoading := false, indicatorOn := false,
                 fetchCount := s.fetchCount + 1 } := by
  unfold loadMore
  rw [hL, hM]
  simp only [Bool.not_true, Bool.false_or, Bool.false_eq_true, if_false]
  rw [loadMoreBody_zero (loadMoreStart s) data h]
  by_cases hc : maxFailedAttempts ≤ s.failedAttempts + 1 <;>
    simp [loadMoreStart, hc, hM]

theorem loadMore_exec_fields (s : AppState) (data : Option RawData)
    (hL : s.isLoading = false) (hM : s.hasMore = true) :
    (loadMore s data).currentSubredditIndex =
      (s.currentSubredditIndex + 1) % subreddits.length ∧
    (loadMore s data).failedAttempts =
      (if (parseMemes data s.seenIds).1 = [] then s.failedAttempts + 1
       else 0) ∧
    (loadMore s data).isLoading = false ∧
    (loadMore s data).indicatorOn = false := by
  by_cases hz : (parseMemes data s.seenIds).1 = []
  · rw [loadMore_zero s data hL hM hz]
    split <;> simp [hz]
  · cases data with
    | none => exact absurd rfl hz
    | some dd =>
      unfold loadMore
      rw [hL, hM]
      simp only [Bool.not_true, Bool.false_or, Bool.false_eq_true, if_false]
      unfold loadMoreBody loadMoreStart
      have hpos : 0 < (parseMemes (some dd) s.seenIds).1.length :=
        List.length_pos.mpr hz
      simp [hpos, hz, maxFailedAttempts]

end MemeApp

namespace ThemeManager

/-- The state touched by `src/js/theme.js`: the `localStorage` entry for
key `theme` (`none` when the key is absent), the manager's `this.theme`,
the `data-theme` attribute on the document element, and the
`theme-color` meta content. -/
structure ThemeState where
  storage : Option String
  theme : String
  dataTheme : String
  metaColor : String
  deriving DecidableEq, Repr

/-- JavaScript truthiness of `localStorage.getItem('theme')`: the absent
key yields `null` (falsy) and a stored empty string is falsy too. -/
def themePresent : Option String → Bool
  | none => false
  | some t => !(t == "")

/-- `updateMetaThemeColor` (lines 76-88): `#161b22` for dark, `#f6f8fa`
otherwise. -/
def metaColorFor (theme : String) : String :=
  if theme == "dark" then "#161b22" else "#f6f8fa"

/-- `ThemeManager.applyTheme` (lines 55-64): set the `data-theme`
attribute, record the theme, persist it to `localStorage`, and update the
meta color.  Note it persists every applied theme, including the
system-derived startup theme. -/
def applyTheme (s : ThemeState) (theme : String) : ThemeState :=
  { s with dataTheme := theme, theme := theme, storage := some theme,
           metaColor := metaColorFor theme }

/-- `ThemeManager.getInitialTheme` (lines 13-27): a truthy stored theme
wins; otherwise the OS `prefers-color-scheme: light` signal picks light;
otherwise dark. -/
def getInitialTheme (storage : Option String) (systemLight : Bool) : String :=
  match storage with
  | some t => if t == "" then (if systemLight then "light" else "dark") else t
  | none => if systemLight then "light" else "dark"

/-- `ThemeManager.toggle` (lines 67-73). -/
def toggle (s : ThemeState) : ThemeState :=
  applyTheme s (if s.theme == "dark" then "light" else "dark")

/-- The `change` handler installed by `watchSystemTheme` (lines 95-100)
for the `(prefers-color-scheme: dark)` query: apply the OS scheme only
when no theme is persisted.  `m` is `e.matches`. -/
def systemThemeChange (s : ThemeState) (m : Bool) : ThemeState :=
  if themePresent s.storage then s
  else applyTheme s (if m then "dark" else "light")

end ThemeManager

namespace MemeApp

/-- C1: within one feed session, no Item whose id is already in `seenIds`
is ever passed to the Render Sink: after any sequence of operations from
the startup state, the ids of the rendered items are pairwise distinct,
because `parseMemes` is the only producer of Items and it skips any record
whose `postLink` is in `seenIds` and adds the `postLink` before emitting. -/
theorem claim1_dedup_invariant (pageSize : Nat) (evs : List Ev) :
    ((run (initialState pageSize) evs).rendered.map Item.id).Nodup :=
  (inv_run (initialState pageSize) evs (inv_initialState pageSize)).1

/-- C2: from any idle state with `hasMore = true` and a failure streak of
0, three consecutive executed incremental loads that each yield zero
normalized items set `hasMore` to false and show the end-of-feed
indicator, and a fourth `loadMore` call is then a no-op: no fetch, no
state change. -/
theorem claim2_exhaustion_threshold (s : AppState) (d1 d2 d3 : Option RawData)
    (hL : s.isLoading = false) (hM : s.hasMore = true)
    (hF : s.failedAttempts = 0)
    (h1 : (parseMemes d1 s.seenIds).1 = [])
    (h2 : (parseMemes d2 s.seenIds).1 = [])
    (h3 : (parseMemes d3 s.seenIds).1 = []) :
    (loadMore (loadMore (loadMore s d1) d2) d3).hasMore = false ∧
    (loadMore (loadMore (loadMore s d1) d2) d3).endShown = true ∧
    ∀ d4 : Option RawData,
      loadMore (loadMore (loadMore (loadMore s d1) d2) d3) d4 =
        loadMore (loadMore (loadMore s d1) d2) d3 := by
  have e1 : loadMore s d1 =
      { s with failedAttempts := s.failedAttempts + 1,
               currentSubredditIndex :=
                 (s.currentSubredditIndex + 1) % subreddits.length,
               isLoading := false, indicatorOn := false,
               fetchCount := s.fetchCount + 1 } := by
    rw [loadMore_zero s d1 hL hM h1]
    rw [if_neg (by rw [hF]; decide)]
  have e2 : loadMore (loadMore s d1) d2 =
      { s with failedAttempts := s.failedAttempts + 2,
               currentSubredditIndex :=
                 ((s.currentSubredditIndex + 1) % subreddits.length + 1) %
                   subreddits.length,
               isLoading := false, indicatorOn := false,
               fetchCount := s.fetchCount + 2 } := by
    rw [e1]
    rw [loadMore_zero
      { s with failedAttempts := s.failedAttempts + 1,
               currentSubredditIndex :=
                 (s.currentSubredditIndex + 1) % subreddits.length,
               isLoading := false, indicatorOn := false,
               fetchCount := s.fetchCount + 1 } d2 rfl hM h2]
    rw [if_neg (by simp [hF, maxFailedAttempts])]
  have e3 : loadMore (loadMore (loadMore s d1) d2) d3 =
      { s with failedAttempts := s.failedAttempts + 3,
               currentSubredditIndex :=
                 (((s.currentSubredditIndex + 1) % subreddits.length + 1) %
                   subreddits.length + 1) % subreddits.length,
               hasMore := false, endShown := true,
               isLoading := false, indicatorOn := false,
               fetchCount := s.fetchCount + 3 } := by
    rw [e2]
    rw [loadMore_zero
      { s with failedAttempts := s.failedAttempts + 2,
               currentSubredditIndex :=
                 ((s.currentSubredditIndex + 1) % subreddits.length + 1) %
                   subreddits.length,
               isLoading := false, indicatorOn := false,
               fetchCount := s.fetchCount + 2 } d3 rfl hM h3]
    rw [if_pos (by simp [hF, maxFailedAttempts])]
  refine ⟨by rw [e3], by rw [e3], fun d4 => ?_⟩
  exact loadMore_noop _ d4 (Or.inr (by rw [e3]))

/-- C3: a `loadMore` call while `isLoading` is true or `hasMore` is false
is a silent no-op leaving every field of the state unchanged; and when an
executed load is suspended at its fetch (modelled by `loadMoreStart`,
which is where the one network request of the call is issued), a second
call arriving in that window is a no-op, so two rapid calls produce
exactly one network request. -/
theorem claim3_guard_noop (s : AppState) (d d1 d2 : Option RawData) :
    (s.isLoading = true ∨ s.hasMore = false → loadMore s d = s) ∧
    (s.isLoading = false → s.hasMore = true →
      loadMore (loadMoreStart s) d2 = loadMoreStart s ∧
      loadMoreBody (loadMoreStart s) d1 = loadMore s d1 ∧
      (loadMore s d1).fetchCount = s.fetchCount + 1) := by
  refine ⟨loadMore_noop s d, fun hL hM => ⟨?_, ?_, ?_⟩⟩
  · exact loadMore_noop _ d2 (Or.inl rfl)
  · have : loadMore s d1 = loadMoreBody (loadMoreStart s) d1 := by
      rw [loadMore, hL, hM]
      rfl
    exact this.symm
  · have : loadMore s d1 = loadMoreBody (loadMoreStart s) d1 := by
      rw [loadMore, hL, hM]
      rfl
    rw [this, loadMoreBody_fetchCount]
    rfl

/-- C4: `reloadFeed` resets the whole session state — the ledger becomes
empty, the cursor, failure streak, end message, rendered cards and error
box return to their startup values, `hasMore` is true — and immediately
re-triggers an initial load, after whose completion `isLoading` is false,
`hasMore` is still true, the cursor is 0 and the streak is 0. -/
theorem claim4_reload_resets (s : AppState) :
    (reloadReset s).seenIds = [] ∧
    (reloadReset s).currentSubredditIndex = 0 ∧
    (reloadReset s).failedAttempts = 0 ∧
    (reloadReset s).hasMore = true ∧
    (reloadReset s).endShown = false ∧
    (reloadReset s).rendered = [] ∧
    (reloadReset s).errorMsg = none ∧
    ∀ (results : List (Option RawData)) (rand : Nat → Nat),
      reloadFeed s results rand =
        loadInitialMemes (reloadReset s) results rand ∧
      (reloadFeed s results rand).isLoading = false ∧
      (reloadFeed s results rand).hasMore = true ∧
      (reloadFeed s results rand).currentSubredditIndex = 0 ∧
      (reloadFeed s results rand).failedAttempts = 0 := by
  refine ⟨rfl, rfl, rfl, rfl, rfl, rfl, rfl, fun results rand => ?_⟩
  have h := loadInitialMemes_fields (reloadReset s) results rand
  exact ⟨rfl, h.1, h.2.1, h.2.2.1, h.2.2.2.1⟩

/-- C5: if the concatenated, pre-slice item list of an initial load is
empty, the engine shows the error state (whose markup carries the Try
Again retry action invoking `reloadFeed`), renders no items, and does not
transition to exhausted: `hasMore` stays true and the end-of-feed
indicator stays hidden. -/
theorem claim5_initial_empty_error (s : AppState)
    (results : List (Option RawData)) (rand : Nat → Nat)
    (hM : s.hasMore = true) (hE : s.endShown = false)
    (h : (gatherMemes results s.seenIds).1 = []) :
    (loadInitialMemes s results rand).errorMsg = some noMemesMsg ∧
    (loadInitialMemes s results rand).rendered = [] ∧
    (loadInitialMemes s results rand).hasMore = true ∧
    (loadInitialMemes s results rand).endShown = false := by
  simp only [loadInitialMemes, h]
  have hsh : shuffleArray rand ([] : List Item) = [] := rfl
  simp [hsh, hM, hE]

/-- C6: the `parseMemes` loop is a pure order-preserving filter: a record
flagged nsfw never produces an Item regardless of dedup state, a record
whose identifier is already in the ledger produces no Item, every other
record has its identifier added to the ledger and yields exactly one
Item, and the emitted items are a sublist of the input records in input
order. -/
theorem claim6_normalizer_filter (post : Post) (posts : List Post)
    (seen : List String) :
    (post.nsfw = true →
      parseMemesAux (post :: posts) seen = parseMemesAux posts seen) ∧
    (post.postLink ∈ seen →
      parseMemesAux (post :: posts) seen = parseMemesAux posts seen) ∧
    (post.postLink ∉ seen → post.nsfw = false →
      parseMemesAux (post :: posts) seen =
        (toItem post :: (parseMemesAux posts (post.postLink :: seen)).1,
         (parseMemesAux posts (post.postLink :: seen)).2) ∧
      post.postLink ∈ (parseMemesAux (post :: posts) seen).2) ∧
    List.Sublist ((parseMemesAux (post :: posts) seen).1)
      ((post :: posts).map toItem) := by
  refine ⟨?_, ?_, ?_, parseMemesAux_sublist _ _⟩
  · intro hn
    by_cases hm : post.postLink ∈ seen <;> simp [parseMemesAux, hm, hn]
  · intro hm
    simp [parseMemesAux, hm]
  · intro hm hn
    refine ⟨by simp [parseMemesAux, hm, hn], ?_⟩
    simp only [parseMemesAux, if_neg hm, hn, Bool.false_eq_true, if_false]
    exact parseMemesAux_seen_mono posts _ _ (List.mem_cons_self _ _)

/-- C7: in an executed incremental load, an absent fetch result is
treated identically to a present fetch whose normalization produced zero
items — `parseMemes` yields `[]` in both cases and the streak increments
by exactly 1 — while a load producing at least one normalized item
resets the streak to 0; in all cases the cursor then advances by exactly
1 modulo the registry length. -/
theorem claim7_streak_accounting (s : AppState) (data : Option RawData)
    (hL : s.isLoading = false) (hM : s.hasMore = true) :
    (parseMemes none s.seenIds).1 = [] ∧
    ((parseMemes data s.seenIds).1 = [] →
      (loadMore s data).failedAttempts = s.failedAttempts + 1) ∧
    ((parseMemes data s.seenIds).1 ≠ [] →
      (loadMore s data).failedAttempts = 0) ∧
    (loadMore s data).currentSubredditIndex =
      (s.currentSubredditIndex + 1) % subreddits.length := by
  have h := loadMore_exec_fields s data hL hM
  refine ⟨rfl, fun hz => ?_, fun hz => ?_, h.1⟩
  · rw [h.2.1, if_pos hz]
  · rw [h.2.1, if_neg hz]

/-- C8: `shuffleArray` is Fisher-Yates: its result is always a
permutation of the input; it agrees with the reference loop that runs
from the last index down to index 0 (whose final step is forced to be a
self-swap); its draws correspond to an explicit choice list
(`shuffleWith`/`randChoices`); there are exactly `n!` valid choice lists
for an input of length `n`; and for a duplicate-free input each
permutation of the input is produced by exactly one valid choice list,
so under independent uniform draws every permutation has probability
`1 / n!`. -/
theorem claim8_shuffle_fisher_yates {α : Type} [DecidableEq α] :
    (∀ (rand : Nat → Nat) (l : List α), List.Perm (shuffleArray rand l) l) ∧
    (∀ (rand : Nat → Nat) (l : List α), rand 0 = 0 →
      refFisherYates rand l = shuffleArray rand l) ∧
    (∀ (rand : Nat → Nat) (l : List α),
      shuffleArray rand l = shuffleWith l (randChoices rand (l.length - 1))) ∧
    (∀ i : Nat, (allChoices i).length = Nat.factorial (i + 1)) ∧
    (∀ l p : List α, l.Nodup → List.Perm p l →
      ((allChoices (l.length - 1)).filter
        fun cs => decide (shuffleWith l cs = p)).length = 1) :=
  ⟨shuffleArray_perm,
   fun rand l h0 => refFisherYates_eq_shuffleArray rand h0 l,
   shuffleArray_eq_shuffleWith, allChoices_length, shuffle_uniform_count⟩

/-- C8 witness: the theorem applied at a concrete shuffle of `[1, 2, 3]`
with all draws 0, and at the concrete target permutation `[2, 3, 1]`. -/
theorem claim8_witness :
    List.Perm (shuffleArray (fun _ => 0) [1, 2, 3]) [1, 2, 3] ∧
    refFisherYates (fun _ => 0) [1, 2, 3] =
      shuffleArray (fun _ => 0) [1, 2, 3] ∧
    shuffleArray (fun _ => 0) [1, 2, 3] =
      shuffleWith [1, 2, 3] (randChoices (fun _ => 0) 2) ∧
    (allChoices 2).length = Nat.factorial 3 ∧
    ((allChoices 2).filter
      fun cs => decide (shuffleWith [1, 2, 3] cs = [2, 3, 1])).length = 1 := by
  obtain ⟨p1, p2, p3, p4, p5⟩ := @claim8_shuffle_fisher_yates Nat _
  exact ⟨p1 (fun _ => 0) [1, 2, 3], p2 (fun _ => 0) [1, 2, 3] rfl,
    p3 (fun _ => 0) [1, 2, 3], p4 2,
    p5 [1, 2, 3] [2, 3, 1] (by decide) (by decide)⟩

/-- C10: every `loadMore` call that passes the busy/exhausted guard
terminates with `isLoading = false` and the loading indicator off, on
the rendering path, the zero-items path, the absent-fetch path, the
exhaustion-threshold path (all covered by `loadMore`) and the
caught-exception path (`loadMoreExc`). -/
theorem claim10_loading_cleared (s : AppState) (data : Option RawData)
    (hL : s.isLoading = false) (hM : s.hasMore = true) :
    (loadMore s data).isLoading = false ∧
    (loadMore s data).indicatorOn = false ∧
    (loadMoreExc s).isLoading = false ∧
    (loadMoreExc s).indicatorOn = false := by
  have h := loadMore_exec_fields s data hL hM
  have hexc1 : (loadMoreExc s).isLoading = false := by
    simp [loadMoreExc, loadMoreStart, hL, hM]
  have hexc2 : (loadMoreExc s).indicatorOn = false := by
    simp [loadMoreExc, loadMoreStart, hL, hM]
  exact ⟨h.2.2.1, h.2.2.2, hexc1, hexc2⟩

/-- C2 witness: three absent-fetch incremental loads from the startup
state exhaust the feed and a fourth call is a no-op. -/
theorem claim2_witness :
    (loadMore (loadMore (loadMore (initialState 6) none) none) none).hasMore
      = false ∧
    (loadMore (loadMore (loadMore (initialState 6) none) none) none).endShown
      = true ∧
    ∀ d4 : Option RawData,
      loadMore (loadMore (loadMore (loadMore (initialState 6) none) none)
        none) d4 =
      loadMore (loadMore (loadMore (initialState 6) none) none) none :=
  claim2_exhaustion_threshold (initialState 6) none none none rfl rfl rfl
    rfl rfl rfl

/-- C3 witness: the theorem applied to a busy state and to the startup
state. -/
theorem claim3_witness :
    (loadMore (loadMoreStart (initialState 6)) none =
      loadMoreStart (initialState 6)) ∧
    (loadMore (loadMoreStart (initialState 6)) none =
      loadMoreStart (initialState 6) ∧
     loadMoreBody (loadMoreStart (initialState 6)) none =
      loadMore (initialState 6) none ∧
     (loadMore (initialState 6) none).fetchCount =
      (initialState 6).fetchCount + 1) := by
  have h := claim3_guard_noop (loadMoreStart (initialState 6)) none none none
  have h2 := claim3_guard_noop (initialState 6) none none none
  exact ⟨h.1 (Or.inl rfl), h2.2 rfl rfl⟩

/-- C5 witness: three failed initial fetches from the startup state show
the error and leave the feed alive. -/
theorem claim5_witness :
    (loadInitialMemes (initialState 6) [none, none, none]
      (fun _ => 0)).errorMsg = some noMemesMsg ∧
    (loadInitialMemes (initialState 6) [none, none, none]
      (fun _ => 0)).rendered = [] ∧
    (loadInitialMemes (initialState 6) [none, none, none]
      (fun _ => 0)).hasMore = true ∧
    (loadInitialMemes (initialState 6) [none, none, none]
      (fun _ => 0)).endShown = false :=
  claim5_initial_empty_error (initialState 6) [none, none, none]
    (fun _ => 0) rfl rfl rfl

/-- C6 witness: the theorem applied to a concrete nsfw record in front of
one clean record with an empty ledger. -/
theorem claim6_witness :
    (Post.mk "a" "t" "r" "u" 1 "au" true).nsfw = true ∧
    parseMemesAux [Post.mk "a" "t" "r" "u" 1 "au" true,
        Post.mk "b" "t2" "r" "u2" 2 "au2" false] [] =
      parseMemesAux [Post.mk "b" "t2" "r" "u2" 2 "au2" false] [] := by
  have h := claim6_normalizer_filter (Post.mk "a" "t" "r" "u" 1 "au" true)
    [Post.mk "b" "t2" "r" "u2" 2 "au2" false] []
  exact ⟨rfl, h.1 rfl⟩

/-- C7 witness: the theorem applied to the startup state and an absent
fetch result. -/
theorem claim7_witness :
    (parseMemes none (initialState 6).seenIds).1 = [] ∧
    (loadMore (initialState 6) none).failedAttempts =
      (initialState 6).failedAttempts + 1 ∧
    (loadMore (initialState 6) none).currentSubredditIndex =
      ((initialState 6).currentSubredditIndex + 1) % subreddits.length := by
  have h := claim7_streak_accounting (initialState 6) none rfl rfl
  exact ⟨h.1, h.2.1 rfl, h.2.2.2⟩

/-- C10 witness: the theorem applied to the startup state and an absent
fetch result. -/
theorem claim10_witness :
    (loadMore (initialState 6) none).isLoading = false ∧
    (loadMore (initialState 6) none).indicatorOn = false ∧
    (loadMoreExc (initialState 6)).isLoading = false ∧
    (loadMoreExc (initialState 6)).indicatorOn = false :=
  claim10_loading_cleared (initialState 6) none rfl rfl

end MemeApp

namespace ThemeManager

/-- C9: an OS color-scheme change event updates the stored theme to match
the new OS scheme exactly when nothing is persisted under the `theme`
key, and never overrides a persisted theme; and `applyTheme` persists
every theme it applies (including the system-derived startup theme) to
that same key. -/
theorem claim9_system_theme (s : ThemeState) (m : Bool) :
    (themePresent s.storage = false →
      (systemThemeChange s m).theme = (if m then "dark" else "light") ∧
      (systemThemeChange s m).storage =
        some (if m then "dark" else "light")) ∧
    (themePresent s.storage = true → systemThemeChange s m = s) ∧
    (∀ t : String, (applyTheme s t).storage = some t) := by
  refine ⟨fun h => ?_, fun h => ?_, fun t => rfl⟩
  · rw [systemThemeChange, h]
    exact ⟨rfl, rfl⟩
  · rw [systemThemeChange, h]
    rfl

/-- C9 witness: the theorem applied to a state with no persisted theme
and to a state with a persisted light theme, for a dark-mode event. -/
theorem claim9_witness :
    ((systemThemeChange (ThemeState.mk none "dark" "dark" "#161b22")
        true).theme = "dark" ∧
     (systemThemeChange (ThemeState.mk none "dark" "dark" "#161b22")
        true).storage = some "dark") ∧
    systemThemeChange (ThemeState.mk (some "light") "light" "light"
      "#f6f8fa") true =
      ThemeState.mk (some "light") "light" "light" "#f6f8fa" ∧
    (applyTheme (ThemeState.mk none "dark" "dark" "#161b22")
      "light").storage = some "light" := by
  have h1 := claim9_system_theme
    (ThemeState.mk none "dark" "dark" "#161b22") true
  have h2 := claim9_system_theme
    (ThemeState.mk (some "light") "light" "light" "#f6f8fa") true
  have he := h1.1 rfl
  exact ⟨⟨he.1.trans (by rfl), he.2.trans (by rfl)⟩, h2.2.1 rfl,
    h1.2.2 "light"⟩

end ThemeManager
